import Mathlib

/-!
Shallow embedding of the buck2_tui load-coordination and scheduler core.

The definitions below are translated from the repository sources:
* `src/buck.rs` — `BuckProject` single-flight directory/detail loading
  (`request_targets_for_directory`, `request_target_details`,
  `update_loaded_target_results`, the two background loader tasks, and
  `parse_buck2_targets_output_static`);
* `src/scheduler/hooks.rs` — the `Hooks` registry;
* `src/scheduler/task.rs` — `Task`, `Priority`, `take_task_on_success`;
* `src/scheduler/scheduler.rs` — `handle_task`, `Ongoing::remove`,
  `Scheduler::cancel`.

Tokio cancellation tokens are modelled as natural-number ids together with a
set (list) of ids that have been cancelled; a token object shared between a
request record and a worker is the shared id.  Unbounded mpsc channels are
modelled as FIFO lists carried in the project state.  Each background-worker
message handling (receive, check cancellation, produce, check, send) is one
atomic step, matching the cooperative-cancellation granularity of the source.
-/

namespace BuckTui

/-- Result of a fallible operation. Mirrors `anyhow::Result` with the error
payload dropped: the draining code in `src/buck.rs` only matches `Err(_)`. -/
inductive LoadResult (α : Type) where
  | ok (val : α)
  | err
  deriving DecidableEq

/-- `BuckTarget` from `src/buck.rs`. `path` is the owning directory path. -/
structure BuckTarget where
  name : String
  rule_type : String
  path : String
  deps : List String
  details_loaded : Bool
  deriving DecidableEq

/-- `TargetDetails` from `src/buck.rs`. -/
structure TargetDetails where
  rule_type : String
  deps : List String
  deriving DecidableEq

/-- `BuckDirectory` from `src/buck.rs`. -/
structure BuckDirectory where
  path : String
  targets : List BuckTarget
  has_buck_file : Bool
  targets_loaded : Bool
  targets_loading : Bool
  deriving DecidableEq

/-- `ActiveLoadRequest` from `src/buck.rs`; the token is a token id. -/
structure ActiveLoadRequest where
  dir_path : String
  token : Nat
  deriving DecidableEq

/-- `ActiveDetailRequest` from `src/buck.rs`. -/
structure ActiveDetailRequest where
  dir_path : String
  target_index : Nat
  token : Nat
  deriving DecidableEq

/-- The mutable state of `BuckProject` (src/buck.rs) together with the
channels connecting it to its two background loader tasks.
`directories` embeds the `HashMap<PathBuf, BuckDirectory>` as an association
list; `cancelledTokens` is the set of cancellation-token ids on which
`cancel()` has been called; `nextToken` provides fresh token ids.
`loaderQueue`/`detailLoaderQueue` are the loader request channels, and
`resultQueue`/`detailResultQueue` the corresponding result channels. -/
structure ProjState where
  directories : List (String × BuckDirectory)
  selected_directory : String
  selected_target : Nat
  search_query : String
  filtered_targets : List BuckTarget
  activeLoad : Option ActiveLoadRequest
  activeDetail : Option ActiveDetailRequest
  cancelledTokens : List Nat
  nextToken : Nat
  loaderQueue : List (String × Nat)
  detailLoaderQueue : List (String × Nat × String × Nat)
  resultQueue : List (String × LoadResult (List BuckTarget))
  detailResultQueue : List (String × Nat × LoadResult TargetDetails)
  deriving DecidableEq

/-- `HashMap::get`, on the association-list embedding. -/
def dirsGet : List (String × BuckDirectory) → String → Option BuckDirectory
  | [], _ => none
  | p :: ds, k => if p.1 == k then some p.2 else dirsGet ds k

/-- `HashMap::get_mut` followed by a mutation `f` of the entry. -/
def dirsUpdate : List (String × BuckDirectory) → String →
    (BuckDirectory → BuckDirectory) → List (String × BuckDirectory)
  | [], _, _ => []
  | p :: ds, k, f => (if p.1 == k then (p.1, f p.2) else p) :: dirsUpdate ds k f

/-- Character-list test used to embed `str::is_char_boundary`-free prefix
matching for Rust `str::contains`. -/
def chPre : List Char → List Char → Bool
  | [], _ => true
  | _ :: _, [] => false
  | a :: as, b :: bs => a == b && chPre as bs

/-- Substring occurrence test on character lists (Rust `str::contains`). -/
def chSub (needle : List Char) : List Char → Bool
  | [] => chPre needle []
  | b :: bs => chPre needle (b :: bs) || chSub needle bs

/-- Rust `str::contains`. -/
def strContains (hay needle : String) : Bool := chSub needle.toList hay.toList

/-- `BuckTarget::target_name` (src/buck.rs): last `//` segment, then last
`:` segment of the label. -/
def targetName (t : BuckTarget) : String :=
  ((((t.name.splitOn "//").getLast?).getD "").splitOn ":").getLast?.getD ""

/-- `BuckTarget::display_title` (src/buck.rs): `" {name} ({rule_type})"`. -/
def displayTitle (t : BuckTarget) : String :=
  " " ++ targetName t ++ " (" ++ t.rule_type ++ ")"

/-- The `selected_dir_targets` local of
`update_filtered_targets_with_reset` (src/buck.rs:634). -/
def selTargetsOf (s : ProjState) : List BuckTarget :=
  match dirsGet s.directories s.selected_directory with
  | some d => d.targets
  | none => []

/-- The filtered target list computed by
`update_filtered_targets_with_reset` (src/buck.rs:640-658). -/
def filteredOf (s : ProjState) : List BuckTarget :=
  if s.search_query.isEmpty then selTargetsOf s
  else (selTargetsOf s).filter (fun t =>
    strContains (displayTitle t).toLower s.search_query.toLower ||
    strContains t.rule_type.toLower s.search_query.toLower)

/-- `BuckProject::update_filtered_targets_with_reset` (src/buck.rs:632).
Recomputes the UI-visible filtered list from the selected directory and,
depending on `reset`, resets or clamps the selected-target index. -/
def updateFilteredTargetsWithReset (s : ProjState) (reset : Bool) : ProjState :=
  if reset then
    { s with filtered_targets := filteredOf s, selected_target := 0 }
  else if s.selected_target ≥ (filteredOf s).length && !(filteredOf s).isEmpty then
    { s with filtered_targets := filteredOf s, selected_target := (filteredOf s).length - 1 }
  else { s with filtered_targets := filteredOf s }

/-- `BuckProject::update_filtered_targets` (src/buck.rs:628). -/
def updateFilteredTargets (s : ProjState) : ProjState :=
  updateFilteredTargetsWithReset s true

/-- The non-early-return tail of `request_targets_for_directory`
(src/buck.rs:342-362): cancel the previous active request if any, create a
fresh token, record the new active request, mark the directory as loading and
send the request to the background loader.  The source calls
`directories.get_mut(&dir).unwrap()` twice; `none` models the panic when the
directory is absent from the map. -/
def requestLoadFresh (s : ProjState) (dir : String) : Option ProjState :=
  let s1 :=
    match s.activeLoad with
    | some ar =>
      if (dirsGet s.directories dir).isSome then
        some { s with
          cancelledTokens := ar.token :: s.cancelledTokens,
          directories := dirsUpdate s.directories dir
            (fun d => { d with targets_loading := true }) }
      else none
    | none => some s
  match s1 with
  | none => none
  | some s1 =>
    let tok := s1.nextToken
    let s2 := { s1 with
      nextToken := s1.nextToken + 1,
      activeLoad := some ⟨dir, tok⟩ }
    if (dirsGet s2.directories dir).isSome then
      some { s2 with
        directories := dirsUpdate s2.directories dir
          (fun d => { d with targets_loading := true }),
        loaderQueue := s2.loaderQueue ++ [(dir, tok)] }
    else none

/-- `BuckProject::request_targets_for_directory` (src/buck.rs:331). -/
def requestTargetsForDirectory (s : ProjState) (dir : String) : Option ProjState :=
  match dirsGet s.directories dir with
  | some d =>
    if d.targets_loaded || d.targets_loading || !d.has_buck_file then
      some (updateFilteredTargetsWithReset s true)
    else requestLoadFresh s dir
  | none => requestLoadFresh s dir

/-- `BuckProject::request_target_details` (src/buck.rs:365).  The initial
`directories.get(&dir_path).unwrap()` panics when the key is absent (`none`
here); an out-of-range index or an already detail-loaded target returns
without effect. -/
def requestTargetDetails (s : ProjState) (dir_path : String) (target_index : Nat) :
    Option ProjState :=
  match dirsGet s.directories dir_path with
  | none => none
  | some d =>
    match d.targets[target_index]? with
    | none => some s
    | some target =>
      if target.details_loaded then some s
      else
        let s1 :=
          match s.activeDetail with
          | some ar => { s with cancelledTokens := ar.token :: s.cancelledTokens }
          | none => s
        let tok := s1.nextToken
        let s2 := { s1 with
          nextToken := s1.nextToken + 1,
          activeDetail := some ⟨dir_path, target_index, tok⟩ }
        some { s2 with
          detailLoaderQueue :=
            s2.detailLoaderQueue ++ [(dir_path, target_index, target.name, tok)] }

/-- `BuckProject::request_target_details_for_selected` (src/buck.rs:753). -/
def requestTargetDetailsForSelected (s : ProjState) : Option ProjState :=
  match s.filtered_targets[s.selected_target]? with
  | none => some s
  | some sel =>
    match dirsGet s.directories s.selected_directory with
    | none => some s
    | some d =>
      match d.targets.findIdx? (fun t => t.name == sel.name && t.path == sel.path) with
      | none => some s
      | some idx => requestTargetDetails s s.selected_directory idx

/-- The selected-directory tail of one target-result processing step
(src/buck.rs:447-453): recompute the filtered list with the selection reset
and, if it is non-empty, request details for the now-selected target. -/
def selectedRefresh (s : ProjState) : Option ProjState :=
  let s4 := updateFilteredTargetsWithReset s true
  if s4.filtered_targets.isEmpty then some s4
  else requestTargetDetailsForSelected s4

/-- Processing of one received `(dir_path, result)` pair inside
`update_loaded_target_results` (src/buck.rs:406-454).  `none` models the
panic of `directories.get_mut(&dir_path).unwrap()` on an unknown key. -/
def processTargetResult (s : ProjState) (dir_path : String)
    (result : LoadResult (List BuckTarget)) : Option ProjState :=
  match dirsGet s.directories dir_path with
  | none => none
  | some d =>
    let d1 := { d with targets_loading := false }
    let s1 := { s with directories := dirsUpdate s.directories dir_path (fun _ => d1) }
    let s2 :=
      match s1.activeLoad with
      | some ar => if ar.dir_path == d1.path then { s1 with activeLoad := none } else s1
      | none => s1
    let currentSelected := d1.path == s2.selected_directory
    let d2 :=
      match result with
      | .ok targets => { d1 with targets := targets, targets_loaded := true }
      | .err => { d1 with targets := [], targets_loaded := true }
    let s3 := { s2 with directories := dirsUpdate s2.directories dir_path (fun _ => d2) }
    if currentSelected then selectedRefresh s3
    else some s3

/-- Processing of one received `(dir_path, target_index, result)` triple
inside `update_loaded_target_results` (src/buck.rs:464-495).  A result whose
index is out of range of the directory's current target list is skipped. -/
def processDetailResult (s : ProjState) (dir_path : String) (target_index : Nat)
    (result : LoadResult TargetDetails) : Option ProjState :=
  match dirsGet s.directories dir_path with
  | none => none
  | some d =>
    match d.targets[target_index]? with
    | none => some s
    | some target =>
      let s1 :=
        match s.activeDetail with
        | some ar =>
          if ar.dir_path == dir_path && ar.target_index == target_index then
            { s with activeDetail := none }
          else s
        | none => s
      let target1 :=
        match result with
        | .ok det => { target with
            rule_type := det.rule_type, deps := det.deps, details_loaded := true }
        | .err => { target with rule_type := "error", details_loaded := true }
      let d1 := { d with targets := d.targets.set target_index target1 }
      let s2 := { s1 with directories := dirsUpdate s1.directories dir_path (fun _ => d1) }
      if dir_path == s2.selected_directory then
        some (updateFilteredTargetsWithReset s2 false)
      else some s2

/-- The first loop of `update_loaded_target_results`, over the drained
target-list results, in arrival order. -/
def processTargetResults :
    ProjState → List (String × LoadResult (List BuckTarget)) → Option ProjState
  | s, [] => some s
  | s, (k, r) :: rest =>
    match processTargetResult s k r with
    | some s1 => processTargetResults s1 rest
    | none => none

/-- The second loop of `update_loaded_target_results`, over the drained
detail results, in arrival order. -/
def processDetailResults :
    ProjState → List (String × Nat × LoadResult TargetDetails) → Option ProjState
  | s, [] => some s
  | s, (k, i, r) :: rest =>
    match processDetailResult s k i r with
    | some s1 => processDetailResults s1 rest
    | none => none

/-- `BuckProject::update_loaded_target_results` (src/buck.rs:397): drain the
target-result channel and process every entry, then drain the detail-result
channel and process every entry. -/
def updateLoadedTargetResults (s : ProjState) : Option ProjState :=
  let trs := s.resultQueue
  match processTargetResults { s with resultQueue := [] } trs with
  | none => none
  | some s2 =>
    let drs := s2.detailResultQueue
    processDetailResults { s2 with detailResultQueue := [] } drs

/-- ASCII whitespace, the fragment of Rust `char::is_whitespace` relevant to
build-tool output. -/
def isWs (c : Char) : Bool := c = ' ' || c = '\t' || c = '\n' || c = '\r'

/-- Rust `str::trim` on a character list (ASCII whitespace). -/
def trimChars (cs : List Char) : List Char :=
  ((cs.dropWhile isWs).reverse.dropWhile isWs).reverse

/-- Splitting at newline characters; together with the trimming done per
line this embeds the `output.lines()` iteration of the parser. -/
def splitLinesAux : List Char → List Char → List (List Char)
  | [], acc => [acc.reverse]
  | c :: cs, acc =>
    if c = '\n' then acc.reverse :: splitLinesAux cs []
    else splitLinesAux cs (c :: acc)

/-- `BuckProject::parse_buck2_targets_output_static` (src/buck.rs:558):
one target per non-empty trimmed line, rule type `"unknown"`, no deps,
details not loaded. -/
def parseBuck2TargetsOutput (output : String) (dir_path : String) :
    LoadResult (List BuckTarget) :=
  .ok ((splitLinesAux output.toList []).foldl
    (fun acc line =>
      let line := trimChars line
      if line.isEmpty then acc
      else acc ++ [{ name := String.mk line, rule_type := "unknown", path := dir_path,
                     deps := [], details_loaded := false }])
    [])

/-- Outcome of one `buck2 targets :` invocation, as observed by
`load_targets_from_directory_static` (src/buck.rs:498): either captured
stdout on exit code zero, or a failure together with whether the directory
has a `BUCK`/`TARGET` file on disk (a failing directory without one yields
an empty target list instead of an error). -/
inductive CmdOutcome where
  | success (stdout : String)
  | failure (dirHasBuckOnDisk : Bool)
  deriving DecidableEq

/-- `load_targets_from_directory_static` (src/buck.rs:498) applied to a
command outcome. -/
def loadTargetsResult (o : CmdOutcome) (dir_path : String) :
    LoadResult (List BuckTarget) :=
  match o with
  | .success out => parseBuck2TargetsOutput out dir_path
  | .failure hasBuck => if hasBuck then .err else .ok []

/-- One message handling of `target_loader_task` (src/buck.rs:286): receive
the next `(path, token)` request; if the token is cancelled, skip it,
otherwise produce the load result and send it on the result channel. -/
def loaderTaskStep (s : ProjState) (o : CmdOutcome) : ProjState :=
  match s.loaderQueue with
  | [] => s
  | (path, tok) :: rest =>
    let s1 := { s with loaderQueue := rest }
    if s1.cancelledTokens.contains tok then s1
    else { s1 with resultQueue := s1.resultQueue ++ [(path, loadTargetsResult o path)] }

/-- One message handling of `target_detail_loader_task` (src/buck.rs:307);
the oracle `o` abstracts the `buck2 query -A` invocation and its parse. -/
def detailLoaderTaskStep (s : ProjState) (o : LoadResult TargetDetails) : ProjState :=
  match s.detailLoaderQueue with
  | [] => s
  | (path, idx, _label, tok) :: rest =>
    let s1 := { s with detailLoaderQueue := rest }
    if s1.cancelledTokens.contains tok then s1
    else { s1 with detailResultQueue := s1.detailResultQueue ++ [(path, idx, o)] }

/-- A sequence of `request_targets_for_directory` calls. -/
def requestSeq : ProjState → List String → Option ProjState
  | s, [] => some s
  | s, k :: ks =>
    match requestTargetsForDirectory s k with
    | some s1 => requestSeq s1 ks
    | none => none

/-- A sequence of loader-worker message handlings. -/
def loaderSteps : ProjState → List CmdOutcome → ProjState
  | s, [] => s
  | s, o :: os => loaderSteps (loaderTaskStep s o) os

/-- A directory that `request_targets_for_directory` will actually start a
load for: present in the map, not loaded, not loading, with a manifest. -/
def eligibleDirB (s : ProjState) (k : String) : Bool :=
  match dirsGet s.directories k with
  | some d => !d.targets_loaded && !d.targets_loading && d.has_buck_file
  | none => false

/-- Token discipline: every cancelled token id and the active request's
token id were produced by the token counter.  Reachable states satisfy this
because tokens are only created fresh. -/
def tokenBoundB (s : ProjState) : Bool :=
  s.cancelledTokens.all (fun t => decide (t < s.nextToken)) &&
  (match s.activeLoad with
   | some ar => decide (ar.token < s.nextToken)
   | none => true)

/-- Every request sitting in the loader channel is either the currently
active request or already cancelled. -/
def queueInv (s : ProjState) : Prop :=
  ∀ e ∈ s.loaderQueue,
    (∃ ar, s.activeLoad = some ar ∧ ar.dir_path = e.1 ∧ ar.token = e.2) ∨
    e.2 ∈ s.cancelledTokens

/-! ## Scheduler core: hooks, tasks, priority lanes (src/scheduler/) -/

/-- State of a `Hooks` registry (src/scheduler/hooks.rs).  Hooks are
identified by opaque ids; `pending` is the mutex-protected inner list and
`executed` records, in execution order, every hook that has been run. -/
structure HooksState where
  pending : List Nat
  executed : List Nat
  deriving DecidableEq

/-- One atomic operation on a `Hooks` registry: `add_sync`/`add_async`
append under the lock; `run_all` swaps the whole pending list out under the
lock and then executes the removed hooks in insertion order, awaiting each
before starting the next (so the batch lands on `executed` in order). -/
inductive HookOp where
  | add (h : Nat)
  | runAll
  deriving DecidableEq

/-- `Hooks::add_*` and `Hooks::run_all` (src/scheduler/hooks.rs:24-51). -/
def hookStep : HooksState → HookOp → HooksState
  | s, .add h => { s with pending := s.pending ++ [h] }
  | s, .runAll => { pending := [], executed := s.executed ++ s.pending }

/-- An interleaved sequence of registry operations. -/
def hookRun : HooksState → List HookOp → HooksState
  | s, [] => s
  | s, op :: ops => hookRun (hookStep s op) ops

/-- `Priority` (src/scheduler/task.rs:19), with its derived discriminant
order `Low = 0 < Normal = 1 < High = 2`. -/
inductive Priority where
  | low
  | normal
  | high
  deriving DecidableEq

/-- The numeric discriminant of `Priority` used by the derived `Ord`. -/
def Priority.pval : Priority → Nat
  | .low => 0
  | .normal => 1
  | .high => 2

/-- The strict order on `Priority` induced by the derived `Ord`. -/
def priorityLt (a b : Priority) : Prop := a.pval < b.pval

instance (a b : Priority) : Decidable (priorityLt a b) :=
  inferInstanceAs (Decidable (a.pval < b.pval))

/-- `TaskStage` (src/scheduler/task.rs:12). -/
inductive TaskStage where
  | pending
  | dispatched
  | hooked
  deriving DecidableEq

/-- `Task` (src/scheduler/task.rs:30).  The success continuation is opaque
and represented by an id under `Option`, exactly as precise as
`Option<TaskOnSuccess>`; `hooks` is the task's pending hook list and
`cancelled` the state of its cancellation token. -/
structure TaskModel where
  id : Nat
  stage : TaskStage
  priority : Priority
  hooks : List Nat
  taskOnSuccess : Option Nat
  cmds : List String
  current_dir : String
  cancelled : Bool
  deriving DecidableEq

/-- `Task::take_task_on_success` (src/scheduler/task.rs:72):
`self.task_on_success.take()`. -/
def takeTaskOnSuccess (t : TaskModel) : Option Nat × TaskModel :=
  (t.taskOnSuccess, { t with taskOnSuccess := none })

/-- Observable effects of the execution unit spawned by
`Scheduler::handle_task` (src/scheduler/scheduler.rs:137-183). -/
inductive ExecEvent where
  | spawned
  | killedChild
  | reapedChild
  | ranOnSuccess (stdout : String)
  | ranHook (h : Nat)
  deriving DecidableEq

/-- The environment's resolution of one task execution: whether `spawn`
succeeded, whether the cancellation token won the `select!` race against
command completion, and the command's exit code and captured stdout. -/
structure ExecOutcome where
  spawnOk : Bool
  cancelledDuringRun : Bool
  exitCode : Int
  stdout : String
  deriving DecidableEq

/-- `Scheduler::handle_task` (src/scheduler/scheduler.rs:107-189) as its
trace of observable events: an already-cancelled or command-less task is
discarded; a spawn failure is returned as an error to the caller without
running anything; mid-flight cancellation kills then awaits the child and
returns; on exit code zero the taken success continuation (when present)
runs on the captured stdout and then `hooks.run_all()` runs every hook in
order; on a non-zero exit nothing further runs. -/
def handleTaskEvents (t : TaskModel) (env : ExecOutcome) : List ExecEvent :=
  if t.cancelled then []
  else if t.cmds.isEmpty then []
  else if !env.spawnOk then []
  else if env.cancelledDuringRun then
    [.spawned, .killedChild, .reapedChild]
  else if env.exitCode = 0 then
    match (takeTaskOnSuccess t).1 with
    | some _ => [.spawned, .ranOnSuccess env.stdout] ++ t.hooks.map ExecEvent.ranHook
    | none => [.spawned]
  else [.spawned]

/-- An entry of one lane's `async_priority_channel` queue, in arrival
order. -/
structure PChanEntry where
  taskId : Nat
  priority : Priority
  deriving DecidableEq

/-- Modelled from the `async_priority_channel` interface used by
`Scheduler::worker_loop` (src/scheduler/scheduler.rs:85-105): `recv`
returns a queued item of maximal priority and the remaining queue.  The
library leaves the tie-break among equal priorities unspecified; this model
keeps the earliest such item, and no theorem below depends on that
choice. -/
def pchanRecv : List PChanEntry → Option (PChanEntry × List PChanEntry)
  | [] => none
  | e :: rest =>
    match pchanRecv rest with
    | none => some (e, rest)
    | some (e2, rest2) =>
      if e.priority.pval < e2.priority.pval then some (e2, e :: rest2)
      else some (e, rest)

/-- `Ongoing` (src/scheduler/scheduler.rs:17): the in-flight task registry
plus the per-lane execution handles, keyed by task id. -/
structure OngoingModel where
  all : List (Nat × TaskModel)
  microHandles : List Nat
  macroHandles : List Nat
  deriving DecidableEq

/-- Association-list lookup for the task registry. -/
def tasksLookup : List (Nat × TaskModel) → Nat → Option TaskModel
  | [], _ => none
  | p :: ps, id => if p.1 == id then some p.2 else tasksLookup ps id

/-- `ongoing.all` lookup by task id. -/
def ongoingLookup (o : OngoingModel) (id : Nat) : Option TaskModel :=
  tasksLookup o.all id

/-- Events produced along the `Scheduler::cancel` path. -/
inductive CancelEvent where
  | abortedMicroHandle (id : Nat)
  | abortedMacroHandle (id : Nat)
  | cancelledToken (id : Nat)
  | ranHook (h : Nat)
  deriving DecidableEq

/-- `Ongoing::remove` (src/scheduler/scheduler.rs:33): abort the micro and
macro execution handles registered for `id` (when present) and remove the
task from `all`, returning it. -/
def ongoingRemove (o : OngoingModel) (id : Nat) :
    OngoingModel × List CancelEvent × Option TaskModel :=
  let evs :=
    (if o.microHandles.contains id then [CancelEvent.abortedMicroHandle id] else []) ++
    (if o.macroHandles.contains id then [CancelEvent.abortedMacroHandle id] else [])
  (⟨o.all.filter (fun p => !(p.1 == id)),
    o.microHandles.filter (fun h => !(h == id)),
    o.macroHandles.filter (fun h => !(h == id))⟩,
   evs, ongoingLookup o id)

/-- `Scheduler::cancel` (src/scheduler/scheduler.rs:207): remove the task
from the ongoing registry (aborting its handles); if it was registered,
trigger its cancellation token and then run all of its hooks. -/
def schedulerCancel (o : OngoingModel) (id : Nat) : OngoingModel × List CancelEvent :=
  match ongoingRemove o id with
  | (o1, evs, some t) =>
    (o1, evs ++ [CancelEvent.cancelledToken id] ++ t.hooks.map CancelEvent.ranHook)
  | (o1, evs, none) => (o1, evs)

/-! ## Basic lemmas about the map embedding -/

theorem dirsGet_update_self (ds : List (String × BuckDirectory)) (k : String)
    (f : BuckDirectory → BuckDirectory) :
    dirsGet (dirsUpdate ds k f) k = (dirsGet ds k).map f := by
  induction ds with
  | nil => rfl
  | cons p ds ih =>
    by_cases h : p.1 = k
    · simp [dirsGet, dirsUpdate, h]
    · simp [dirsGet, dirsUpdate, h, ih]

theorem dirsGet_update_other (ds : List (String × BuckDirectory)) (k k' : String)
    (f : BuckDirectory → BuckDirectory) (h : k' ≠ k) :
    dirsGet (dirsUpdate ds k f) k' = dirsGet ds k' := by
  induction ds with
  | nil => rfl
  | cons p ds ih =>
    by_cases hp : p.1 = k
    · have hne : ¬ p.1 = k' := by rw [hp]; exact fun hh => h hh.symm
      simp [dirsGet, dirsUpdate, hp, hne, ih, Ne.symm h]
    · simp [dirsGet, dirsUpdate, hp, ih]

theorem dirsUpdate_dirsUpdate (ds : List (String × BuckDirectory)) (k : String)
    (f g : BuckDirectory → BuckDirectory) :
    dirsUpdate (dirsUpdate ds k f) k g = dirsUpdate ds k (fun d => g (f d)) := by
  induction ds with
  | nil => rfl
  | cons p ds ih =>
    by_cases h : p.1 = k
    · simp [dirsUpdate, h, ih]
    · simp [dirsUpdate, h, ih]

/-! ## The fresh-request step -/

/-- The effect of cancelling the previously active request, if any. -/
def optCancelTok : Option ActiveLoadRequest → List Nat → List Nat
  | some ar, l => ar.token :: l
  | none, l => l

/-- Characterization of `request_targets_for_directory` on an eligible
directory (present, not loaded, not loading, with a manifest): the previous
active token (if any) is cancelled, a fresh token is created and recorded as
the active request, the directory is marked loading, and the request is
queued to the loader. -/
theorem request_full_spec (s : ProjState) (k : String) (d : BuckDirectory)
    (hd : dirsGet s.directories k = some d)
    (hl : d.targets_loaded = false) (hg : d.targets_loading = false)
    (hb : d.has_buck_file = true) :
    requestTargetsForDirectory s k = some { s with
      directories := dirsUpdate s.directories k
        (fun d0 => { d0 with targets_loading := true }),
      cancelledTokens := optCancelTok s.activeLoad s.cancelledTokens,
      nextToken := s.nextToken + 1,
      activeLoad := some ⟨k, s.nextToken⟩,
      loaderQueue := s.loaderQueue ++ [(k, s.nextToken)] } := by
  have hsome : (dirsGet s.directories k).isSome = true := by rw [hd]; rfl
  cases hact : s.activeLoad with
  | none =>
    simp [requestTargetsForDirectory, hd, hl, hg, hb, requestLoadFresh, hact,
      optCancelTok, hsome]
  | some ar =>
    simp [requestTargetsForDirectory, hd, hl, hg, hb, requestLoadFresh, hact,
      optCancelTok, hsome, dirsGet_update_self, dirsUpdate_dirsUpdate]

/-! ## Shape lemmas: which state components each operation can touch -/

/-- `update_filtered_targets_with_reset` only rewrites the filtered list and
the selected-target index. -/
theorem updateFiltered_shape (s : ProjState) (b : Bool) :
    ∃ ft st, updateFilteredTargetsWithReset s b =
      { s with filtered_targets := ft, selected_target := st } := by
  unfold updateFilteredTargetsWithReset
  by_cases hb : b = true
  · rw [if_pos hb]
    exact ⟨_, _, rfl⟩
  · rw [if_neg hb]
    by_cases hc :
        (s.selected_target ≥ (filteredOf s).length && !(filteredOf s).isEmpty) = true
    · rw [if_pos hc]
      exact ⟨_, _, rfl⟩
    · rw [if_neg hc]
      exact ⟨_, _, rfl⟩

/-- `request_target_details` (when its directory lookup succeeds) only
touches the cancelled-token set, the token counter, the active detail
request and the detail loader channel. -/
theorem requestTargetDetails_shape (s : ProjState) (p : String) (i : Nat)
    (d : BuckDirectory) (hd : dirsGet s.directories p = some d) :
    ∃ ct nt ad dlq, requestTargetDetails s p i =
      some { s with cancelledTokens := ct, nextToken := nt, activeDetail := ad,
                    detailLoaderQueue := dlq } := by
  simp only [requestTargetDetails, hd]
  cases d.targets[i]? with
  | none => exact ⟨_, _, _, _, rfl⟩
  | some t =>
    by_cases hdl : t.details_loaded = true
    · simp only [hdl, if_true]
      exact ⟨_, _, _, _, rfl⟩
    · simp only [Bool.not_eq_true] at hdl
      simp only [hdl, Bool.false_eq_true, if_false]
      cases s.activeDetail with
      | none => exact ⟨_, _, _, _, rfl⟩
      | some ar => exact ⟨_, _, _, _, rfl⟩

/-- `request_target_details_for_selected` always succeeds and only touches
the cancelled-token set, the token counter, the active detail request and
the detail loader channel. -/
theorem requestTargetDetailsForSelected_shape (s : ProjState) :
    ∃ ct nt ad dlq, requestTargetDetailsForSelected s =
      some { s with cancelledTokens := ct, nextToken := nt, activeDetail := ad,
                    detailLoaderQueue := dlq } := by
  rcases hft : s.filtered_targets[s.selected_target]? with _ | sel
  · exact ⟨_, _, _, _, by simp only [requestTargetDetailsForSelected, hft]; rfl⟩
  · rcases hd : dirsGet s.directories s.selected_directory with _ | d
    · exact ⟨_, _, _, _, by simp only [requestTargetDetailsForSelected, hft, hd]; rfl⟩
    · rcases hidx : d.targets.findIdx? (fun t => t.name == sel.name && t.path == sel.path)
        with _ | idx
      · exact ⟨_, _, _, _, by
          simp only [requestTargetDetailsForSelected, hft, hd, hidx]; rfl⟩
      · obtain ⟨ct, nt, ad, dlq, he⟩ :=
          requestTargetDetails_shape s s.selected_directory idx d hd
        exact ⟨ct, nt, ad, dlq, by
          simp only [requestTargetDetailsForSelected, hft, hd, hidx]
          exact he⟩

/-! ## Eligibility -/

theorem eligibleDirB_elim (s : ProjState) (k : String) (h : eligibleDirB s k = true) :
    ∃ d, dirsGet s.directories k = some d ∧ d.targets_loaded = false ∧
      d.targets_loading = false ∧ d.has_buck_file = true := by
  unfold eligibleDirB at h
  rcases hdd : dirsGet s.directories k with _ | d
  · rw [hdd] at h; cases h
  · rw [hdd] at h
    simp only [Bool.and_eq_true, Bool.not_eq_true'] at h
    exact ⟨d, rfl, h.1.1, h.1.2, h.2⟩

theorem eligibleDirB_congr (s1 s2 : ProjState) (k : String)
    (h : dirsGet s1.directories k = dirsGet s2.directories k) :
    eligibleDirB s1 k = eligibleDirB s2 k := by
  unfold eligibleDirB
  rw [h]

/-! ## Loader-worker lemmas -/

theorem loaderTaskStep_frame (s : ProjState) (o : CmdOutcome) :
    (loaderTaskStep s o).directories = s.directories ∧
    (loaderTaskStep s o).activeLoad = s.activeLoad ∧
    (loaderTaskStep s o).cancelledTokens = s.cancelledTokens ∧
    (loaderTaskStep s o).detailResultQueue = s.detailResultQueue := by
  rcases hq : s.loaderQueue with _ | ⟨⟨path, tok⟩, rest⟩
  · simp [loaderTaskStep, hq]
  · by_cases hc : tok ∈ s.cancelledTokens
    · simp [loaderTaskStep, hq, hc]
    · simp [loaderTaskStep, hq, hc]

/-- A worker step never sends a result for a cancelled token: every entry of
the result channel after a step was already there, or belongs to the
currently active request. -/
theorem loaderTaskStep_resultQueue (s : ProjState) (o : CmdOutcome)
    (hinv : queueInv s) :
    ∀ e ∈ (loaderTaskStep s o).resultQueue,
      e ∈ s.resultQueue ∨ ∃ ar, s.activeLoad = some ar ∧ e.1 = ar.dir_path := by
  rcases hq : s.loaderQueue with _ | ⟨⟨path, tok⟩, rest⟩
  · simp only [loaderTaskStep, hq]
    exact fun e he => Or.inl he
  · by_cases hc : s.cancelledTokens.contains tok = true
    · simp only [loaderTaskStep, hq, hc, if_true]
      exact fun e he => Or.inl he
    · simp only [Bool.not_eq_true] at hc
      simp only [loaderTaskStep, hq, hc, Bool.false_eq_true, if_false]
      intro e he
      simp only [List.mem_append, List.mem_singleton] at he
      rcases he with he | he
      · exact Or.inl he
      · have hmem : (path, tok) ∈ s.loaderQueue := by rw [hq]; exact List.mem_cons_self _ _
        rcases hinv (path, tok) hmem with ⟨ar, har, hp, ht⟩ | hcanc
        · refine Or.inr ⟨ar, har, ?_⟩
          rw [he]
          exact hp.symm
        · have : s.cancelledTokens.contains tok = true := by simpa using hcanc
          rw [this] at hc
          cases hc

theorem loaderTaskStep_queueInv (s : ProjState) (o : CmdOutcome) (hinv : queueInv s) :
    queueInv (loaderTaskStep s o) := by
  obtain ⟨_, hact, hcanc, _⟩ := loaderTaskStep_frame s o
  intro e he
  have hmem : e ∈ s.loaderQueue := by
    rcases hq : s.loaderQueue with _ | ⟨⟨path, tok⟩, rest⟩
    · simp only [loaderTaskStep, hq] at he
      exact he
    · by_cases hc : s.cancelledTokens.contains tok = true
      · simp only [loaderTaskStep, hq, hc, if_true] at he
        exact List.mem_cons_of_mem _ he
      · simp only [Bool.not_eq_true] at hc
        simp only [loaderTaskStep, hq, hc, Bool.false_eq_true, if_false] at he
        exact List.mem_cons_of_mem _ he
  rcases hinv e hmem with ⟨ar, har, hp, ht⟩ | hcancd
  · exact Or.inl ⟨ar, by rw [hact]; exact har, hp, ht⟩
  · rw [hcanc]
    exact Or.inr hcancd

theorem loaderSteps_spec (os : List CmdOutcome) : ∀ (s : ProjState), queueInv s →
    (loaderSteps s os).directories = s.directories ∧
    (loaderSteps s os).detailResultQueue = s.detailResultQueue ∧
    (∀ e ∈ (loaderSteps s os).resultQueue,
      e ∈ s.resultQueue ∨ ∃ ar, s.activeLoad = some ar ∧ e.1 = ar.dir_path) := by
  induction os with
  | nil => exact fun s _ => ⟨rfl, rfl, fun e he => Or.inl he⟩
  | cons o os ih =>
    intro s hinv
    obtain ⟨f1, f2, f3, f4⟩ := loaderTaskStep_frame s o
    obtain ⟨h1, h2, h3⟩ := ih (loaderTaskStep s o) (loaderTaskStep_queueInv s o hinv)
    refine ⟨h1.trans f1, h2.trans f4, ?_⟩
    intro e he
    rcases h3 e he with hmem | ⟨ar, har, hkey⟩
    · exact loaderTaskStep_resultQueue s o hinv e hmem
    · rw [f2] at har
      exact Or.inr ⟨ar, har, hkey⟩

/-! ## One eligible request, with invariants -/

theorem request_post_one (s : ProjState) (k : String) (d : BuckDirectory)
    (hd : dirsGet s.directories k = some d)
    (hl : d.targets_loaded = false) (hg : d.targets_loading = false)
    (hb : d.has_buck_file = true)
    (hb1 : ∀ t ∈ s.cancelledTokens, t < s.nextToken)
    (hb2 : ∀ ar, s.activeLoad = some ar → ar.token < s.nextToken)
    (hq : queueInv s) :
    ∃ s1, requestTargetsForDirectory s k = some s1 ∧
      s1.activeLoad = some ⟨k, s.nextToken⟩ ∧
      s1.nextToken = s.nextToken + 1 ∧
      (∀ t ∈ s1.cancelledTokens, t < s.nextToken) ∧
      queueInv s1 ∧
      s1.resultQueue = s.resultQueue ∧
      s1.detailResultQueue = s.detailResultQueue ∧
      (∀ k', k' ≠ k → dirsGet s1.directories k' = dirsGet s.directories k') ∧
      dirsGet s1.directories k =
        (dirsGet s.directories k).map (fun d0 => { d0 with targets_loading := true }) := by
  rw [request_full_spec s k d hd hl hg hb]
  refine ⟨_, rfl, rfl, rfl, ?_, ?_, rfl, rfl,
    fun k' hk' => dirsGet_update_other _ _ _ _ hk', dirsGet_update_self _ _ _⟩
  · intro t ht
    cases hact : s.activeLoad with
    | none =>
      rw [hact] at ht
      exact hb1 t ht
    | some ar =>
      rw [hact] at ht
      rcases List.mem_cons.mp ht with h | h
      · rw [h]
        exact hb2 ar hact
      · exact hb1 t h
  · intro e he
    simp only [List.mem_append, List.mem_singleton] at he
    rcases he with he | he
    · rcases hq e he with ⟨ar, har, hp, ht⟩ | hcanc
      · refine Or.inr ?_
        cases hact : s.activeLoad with
        | none => rw [hact] at har; cases har
        | some ar2 =>
          rw [hact] at har
          injection har with har
          simp only [hact, optCancelTok]
          rw [← ht, ← har]
          exact List.mem_cons_self _ _
      · refine Or.inr ?_
        cases hact : s.activeLoad with
        | none => simpa [optCancelTok] using hcanc
        | some ar2 =>
          simp only [optCancelTok]
          exact List.mem_cons_of_mem _ hcanc
    · exact Or.inl ⟨⟨k, s.nextToken⟩, rfl, by rw [he], by rw [he]⟩

/-- Facts established by a non-empty run of `request_targets_for_directory`
calls on distinct eligible directories ending at key `K`. -/
structure SeqPost (s0 s1 : ProjState) (ks : List String) (K : String) : Prop where
  active : ∃ T, s1.activeLoad = some ⟨K, T⟩ ∧ ∀ t ∈ s1.cancelledTokens, t < T
  bound : ∀ t ∈ s1.cancelledTokens, t < s1.nextToken
  qinv : queueInv s1
  rq : s1.resultQueue = s0.resultQueue
  drq : s1.detailResultQueue = s0.detailResultQueue
  outside : ∀ k, k ∉ ks → dirsGet s1.directories k = dirsGet s0.directories k
  inside : ∀ k ∈ ks, dirsGet s1.directories k =
    (dirsGet s0.directories k).map (fun d0 => { d0 with targets_loading := true })

theorem requestSeq_run : ∀ (ks : List String) (s : ProjState) (K : String),
    ks.getLast? = some K → ks.Nodup →
    (∀ k ∈ ks, eligibleDirB s k = true) →
    (∀ t ∈ s.cancelledTokens, t < s.nextToken) →
    (∀ ar, s.activeLoad = some ar → ar.token < s.nextToken) →
    queueInv s →
    ∃ s1, requestSeq s ks = some s1 ∧ SeqPost s s1 ks K := by
  intro ks
  induction ks with
  | nil => intro s K hlast; cases hlast
  | cons k ks ih =>
    intro s K hlast hnd helig hb1 hb2 hq
    obtain ⟨d, hd, hl, hg, hbf⟩ :=
      eligibleDirB_elim s k (helig k (List.mem_cons_self _ _))
    obtain ⟨s1, hreq, hact1, hnt1, hcanc1, hqinv1, hrq1, hdrq1, hother1, hself1⟩ :=
      request_post_one s k d hd hl hg hbf hb1 hb2 hq
    cases ks with
    | nil =>
      have hK : k = K := by
        simp only [List.getLast?_singleton] at hlast
        injection hlast
      refine ⟨s1, by simp [requestSeq, hreq], ?_⟩
      subst hK
      refine ⟨⟨s.nextToken, hact1, hcanc1⟩, ?_, hqinv1, hrq1, hdrq1, ?_, ?_⟩
      · intro t ht
        rw [hnt1]
        exact Nat.lt_succ_of_lt (hcanc1 t ht)
      · intro k' hk'
        exact hother1 k' (fun he => hk' (by rw [he]; exact List.mem_cons_self _ _))
      · intro k' hk'
        rcases List.mem_cons.mp hk' with h | h
        · rw [h]
          exact hself1
        · cases h
    | cons k2 ks2 =>
      have hlast2 : (k2 :: ks2).getLast? = some K := by
        rw [← hlast]
        exact List.getLast?_cons_cons.symm
      have hnd2 : (k2 :: ks2).Nodup := (List.nodup_cons.mp hnd).2
      have hknotin : k ∉ k2 :: ks2 := (List.nodup_cons.mp hnd).1
      have helig2 : ∀ k' ∈ k2 :: ks2, eligibleDirB s1 k' = true := by
        intro k' hk'
        have hne : k' ≠ k := fun he => hknotin (he ▸ hk')
        rw [eligibleDirB_congr s1 s k' (hother1 k' hne)]
        exact helig k' (List.mem_cons_of_mem _ hk')
      have hb1' : ∀ t ∈ s1.cancelledTokens, t < s1.nextToken := by
        intro t ht
        rw [hnt1]
        exact Nat.lt_succ_of_lt (hcanc1 t ht)
      have hb2' : ∀ ar, s1.activeLoad = some ar → ar.token < s1.nextToken := by
        intro ar har
        rw [hact1] at har
        injection har with har
        rw [← har, hnt1]
        exact Nat.lt_succ_self _
      obtain ⟨s2, hseq2, hpost2⟩ := ih s1 K hlast2 hnd2 helig2 hb1' hb2' hqinv1
      refine ⟨s2, by simp only [requestSeq, hreq]; exact hseq2, ?_⟩
      refine ⟨hpost2.active, hpost2.bound, hpost2.qinv,
        hpost2.rq.trans hrq1, hpost2.drq.trans hdrq1, ?_, ?_⟩
      · intro k' hk'
        have h1 : k' ∉ k2 :: ks2 := fun h => hk' (List.mem_cons_of_mem _ h)
        have h2 : k' ≠ k := fun he => hk' (by rw [he]; exact List.mem_cons_self _ _)
        exact (hpost2.outside k' h1).trans (hother1 k' h2)
      · intro k' hk'
        rcases List.mem_cons.mp hk' with h | h
        · subst h
          rw [hpost2.outside k' hknotin]
          exact hself1
        · rw [hpost2.inside k' h, hother1 k' (fun he => hknotin (he ▸ h))]

/-! ## Drain lemmas -/

theorem selectedRefresh_spec (s : ProjState) :
    ∃ s1, selectedRefresh s = some s1 ∧
      s1.directories = s.directories ∧
      s1.resultQueue = s.resultQueue ∧
      s1.detailResultQueue = s.detailResultQueue := by
  obtain ⟨ft, st, hu⟩ := updateFiltered_shape s true
  simp only [selectedRefresh, hu]
  by_cases he : ft.isEmpty = true
  · simp only [he, if_true]
    exact ⟨_, rfl, rfl, rfl, rfl⟩
  · simp only [he, Bool.false_eq_true, if_false]
    obtain ⟨ct, nt, ad, dlq, h2⟩ := requestTargetDetailsForSelected_shape
      { s with filtered_targets := ft, selected_target := st }
    rw [h2]
    exact ⟨_, rfl, rfl, rfl, rfl⟩

theorem selectedRefresh_bind (X : ProjState) (P : ProjState → Prop)
    (h : ∀ s1, s1.directories = X.directories → s1.resultQueue = X.resultQueue →
      s1.detailResultQueue = X.detailResultQueue → P s1) :
    ∃ s1, selectedRefresh X = some s1 ∧ P s1 := by
  obtain ⟨s1, hch, h1, h2, h3⟩ := selectedRefresh_spec X
  exact ⟨s1, hch, h s1 h1 h2 h3⟩

theorem processTargetResult_spec (s : ProjState) (k : String)
    (r : LoadResult (List BuckTarget)) (d : BuckDirectory)
    (hd : dirsGet s.directories k = some d) :
    ∃ s1, processTargetResult s k r = some s1 ∧
      s1.resultQueue = s.resultQueue ∧
      s1.detailResultQueue = s.detailResultQueue ∧
      (∀ k', k' ≠ k → dirsGet s1.directories k' = dirsGet s.directories k') ∧
      (dirsGet s1.directories k).isSome = true := by
  simp only [processTargetResult, hd]
  cases hact : s.activeLoad with
  | none =>
    by_cases hsel : (d.path == s.selected_directory) = true
    · simp only [hsel, if_true]
      refine selectedRefresh_bind _ _ ?_
      intro s1 h1 h2 h3
      dsimp only at h1 h2 h3
      refine ⟨h2, h3, ?_, ?_⟩
      · intro k' hk'
        rw [h1, dirsGet_update_other _ _ _ _ hk', dirsGet_update_other _ _ _ _ hk']
      · rw [h1]
        simp [dirsGet_update_self, hd]
    · simp only [hsel, Bool.false_eq_true, if_false]
      refine ⟨_, rfl, rfl, rfl, ?_, ?_⟩
      · intro k' hk'
        dsimp only
        rw [dirsGet_update_other _ _ _ _ hk', dirsGet_update_other _ _ _ _ hk']
      · dsimp only
        simp [dirsGet_update_self, hd]
  | some ar =>
    by_cases harp : (ar.dir_path == d.path) = true
    · simp only [harp, if_true]
      by_cases hsel : (d.path == s.selected_directory) = true
      · simp only [hsel, if_true]
        refine selectedRefresh_bind _ _ ?_
        intro s1 h1 h2 h3
        dsimp only at h1 h2 h3
        refine ⟨h2, h3, ?_, ?_⟩
        · intro k' hk'
          rw [h1, dirsGet_update_other _ _ _ _ hk', dirsGet_update_other _ _ _ _ hk']
        · rw [h1]
          simp [dirsGet_update_self, hd]
      · simp only [hsel, Bool.false_eq_true, if_false]
        refine ⟨_, rfl, rfl, rfl, ?_, ?_⟩
        · intro k' hk'
          dsimp only
          rw [dirsGet_update_other _ _ _ _ hk', dirsGet_update_other _ _ _ _ hk']
        · dsimp only
          simp [dirsGet_update_self, hd]
    · simp only [harp, Bool.false_eq_true, if_false]
      by_cases hsel : (d.path == s.selected_directory) = true
      · simp only [hsel, if_true]
        refine selectedRefresh_bind _ _ ?_
        intro s1 h1 h2 h3
        dsimp only at h1 h2 h3
        refine ⟨h2, h3, ?_, ?_⟩
        · intro k' hk'
          rw [h1, dirsGet_update_other _ _ _ _ hk', dirsGet_update_other _ _ _ _ hk']
        · rw [h1]
          simp [dirsGet_update_self, hd]
      · simp only [hsel, Bool.false_eq_true, if_false]
        refine ⟨_, rfl, rfl, rfl, ?_, ?_⟩
        · intro k' hk'
          dsimp only
          rw [dirsGet_update_other _ _ _ _ hk', dirsGet_update_other _ _ _ _ hk']
        · dsimp only
          simp [dirsGet_update_self, hd]

theorem processTargetResults_spec :
    ∀ (es : List (String × LoadResult (List BuckTarget))) (s : ProjState) (K : String),
    (∀ e ∈ es, e.1 = K) → (dirsGet s.directories K).isSome = true →
    ∃ s1, processTargetResults s es = some s1 ∧
      s1.detailResultQueue = s.detailResultQueue ∧
      (∀ k', k' ≠ K → dirsGet s1.directories k' = dirsGet s.directories k') := by
  intro es
  induction es with
  | nil => exact fun s K _ _ => ⟨s, rfl, rfl, fun _ _ => rfl⟩
  | cons e es ih =>
    intro s K h1 h2
    obtain ⟨k0, r0⟩ := e
    have hek : k0 = K := h1 (k0, r0) (List.mem_cons_self _ _)
    subst hek
    obtain ⟨d, hd⟩ := Option.isSome_iff_exists.mp h2
    obtain ⟨s1, hps, hrq, hdrq, hother, hsome⟩ := processTargetResult_spec s k0 r0 d hd
    obtain ⟨s2, hps2, hdrq2, hother2⟩ :=
      ih s1 k0 (fun e he => h1 e (List.mem_cons_of_mem _ he)) hsome
    refine ⟨s2, ?_, hdrq2.trans hdrq, ?_⟩
    · simp only [processTargetResults, hps]
      exact hps2
    · intro k' hk'
      exact (hother2 k' hk').trans (hother k' hk')

/-- When only results for `K` are pending and no detail results are queued,
`update_loaded_target_results` succeeds and touches no directory other
than `K`. -/
theorem updateLoadedTargetResults_spec (s : ProjState) (K : String)
    (hkeys : ∀ e ∈ s.resultQueue, e.1 = K)
    (hK : (dirsGet s.directories K).isSome = true)
    (hdrq : s.detailResultQueue = []) :
    ∃ s1, updateLoadedTargetResults s = some s1 ∧
      ∀ k', k' ≠ K → dirsGet s1.directories k' = dirsGet s.directories k' := by
  obtain ⟨s2, hps, hdrq2, hother⟩ :=
    processTargetResults_spec s.resultQueue { s with resultQueue := [] } K hkeys hK
  have hdrq3 : s2.detailResultQueue = [] := by
    rw [hdrq2]
    exact hdrq
  refine ⟨{ s2 with detailResultQueue := [] }, ?_, ?_⟩
  · simp only [updateLoadedTargetResults, hps, hdrq3]
    rfl
  · intro k' hk'
    exact hother k' hk'

/-! ## Claim C1 -/

/-- C1: Single-flight with preemption.  For any non-empty sequence of
`request_directory_load` calls on distinct eligible directory keys issued
before earlier ones complete (no worker step in between), ending at key `K`:
every request left in the loader channel other than the active one carries a
cancelled token and the active request is the last call's with an uncancelled
token; after any number of worker steps, every result in the result channel
carries the last key, so one `drain_results` call leaves every earlier key's
directory state untouched and in particular never loaded — a result produced
under a cancelled token is never applied to the shared directory state. -/
theorem c1_single_flight (s0 : ProjState) (ks : List String) (K : String)
    (oracles : List CmdOutcome)
    (hlast : ks.getLast? = some K)
    (hnd : ks.Nodup)
    (helig : ∀ k ∈ ks, eligibleDirB s0 k = true)
    (hlq : s0.loaderQueue = [])
    (hrq : s0.resultQueue = [])
    (hdrq : s0.detailResultQueue = [])
    (htok : tokenBoundB s0 = true) :
    ∃ s1, requestSeq s0 ks = some s1 ∧
      (∃ T, s1.activeLoad = some ⟨K, T⟩ ∧ T ∉ s1.cancelledTokens ∧
        ∀ e ∈ s1.loaderQueue, e.2 ≠ T → e.2 ∈ s1.cancelledTokens) ∧
      (∀ e ∈ (loaderSteps s1 oracles).resultQueue, e.1 = K) ∧
      ∃ s3, updateLoadedTargetResults (loaderSteps s1 oracles) = some s3 ∧
        ∀ k ∈ ks, k ≠ K →
          dirsGet s3.directories k = dirsGet s1.directories k ∧
          ∃ d, dirsGet s3.directories k = some d ∧ d.targets_loaded = false := by
  have htok2 := htok
  simp only [tokenBoundB, Bool.and_eq_true, List.all_eq_true, decide_eq_true_eq] at htok2
  obtain ⟨hb1, hb2m⟩ := htok2
  have hb2 : ∀ ar, s0.activeLoad = some ar → ar.token < s0.nextToken := by
    intro ar har
    rw [har] at hb2m
    simpa using hb2m
  have hq0 : queueInv s0 := by
    intro e he
    rw [hlq] at he
    cases he
  obtain ⟨s1, hseq, post⟩ := requestSeq_run ks s0 K hlast hnd helig hb1 hb2 hq0
  obtain ⟨T, hact, hlt⟩ := post.active
  have hTnot : T ∉ s1.cancelledTokens := fun h => absurd (hlt T h) (Nat.lt_irrefl T)
  have hKmem : K ∈ ks := List.mem_of_mem_getLast? hlast
  obtain ⟨dK, hdK, _, _, _⟩ := eligibleDirB_elim s0 K (helig K hKmem)
  obtain ⟨hdirsS, hdrqS, hresS⟩ := loaderSteps_spec oracles s1 post.qinv
  have hkeys : ∀ e ∈ (loaderSteps s1 oracles).resultQueue, e.1 = K := by
    intro e he
    rcases hresS e he with hmem | ⟨ar, har, hkey⟩
    · rw [post.rq, hrq] at hmem
      cases hmem
    · rw [hact] at har
      injection har with har
      rw [hkey, ← har]
  have hKsome : (dirsGet (loaderSteps s1 oracles).directories K).isSome = true := by
    rw [hdirsS, post.inside K hKmem, hdK]
    rfl
  have hdrq3 : (loaderSteps s1 oracles).detailResultQueue = [] := by
    rw [hdrqS, post.drq, hdrq]
  obtain ⟨s3, hdrain, hother3⟩ :=
    updateLoadedTargetResults_spec (loaderSteps s1 oracles) K hkeys hKsome hdrq3
  refine ⟨s1, hseq, ⟨T, hact, hTnot, ?_⟩, hkeys, s3, hdrain, ?_⟩
  · intro e he hne
    rcases post.qinv e he with ⟨ar, har, hp, ht⟩ | hc
    · rw [hact] at har
      injection har with har
      rw [← har] at ht
      exact absurd ht.symm hne
    · exact hc
  · intro k hk hne
    have h1 : dirsGet s3.directories k = dirsGet s1.directories k :=
      (hother3 k hne).trans (by rw [hdirsS])
    refine ⟨h1, ?_⟩
    obtain ⟨d0, hd0, hld0, _, _⟩ := eligibleDirB_elim s0 k (helig k hk)
    rw [h1, post.inside k hk, hd0]
    exact ⟨_, rfl, hld0⟩

/-- A concrete project state with two eligible directories, used to witness
the single-flight theorem. -/
def c1S : ProjState :=
  { directories :=
      [("a", ⟨"a", [], true, false, false⟩), ("b", ⟨"b", [], true, false, false⟩)],
    selected_directory := "a", selected_target := 0, search_query := "",
    filtered_targets := [], activeLoad := none, activeDetail := none,
    cancelledTokens := [], nextToken := 0, loaderQueue := [],
    detailLoaderQueue := [], resultQueue := [], detailResultQueue := [] }

theorem c1_single_flight_witness :
    ∃ s1, requestSeq c1S ["a", "b"] = some s1 ∧
      (∃ T, s1.activeLoad = some ⟨"b", T⟩ ∧ T ∉ s1.cancelledTokens ∧
        ∀ e ∈ s1.loaderQueue, e.2 ≠ T → e.2 ∈ s1.cancelledTokens) ∧
      (∀ e ∈ (loaderSteps s1 [CmdOutcome.failure true, CmdOutcome.failure true]).resultQueue,
        e.1 = "b") ∧
      ∃ s3, updateLoadedTargetResults
          (loaderSteps s1 [CmdOutcome.failure true, CmdOutcome.failure true]) = some s3 ∧
        ∀ k ∈ ["a", "b"], k ≠ "b" →
          dirsGet s3.directories k = dirsGet s1.directories k ∧
          ∃ d, dirsGet s3.directories k = some d ∧ d.targets_loaded = false :=
  c1_single_flight c1S ["a", "b"] "b" [CmdOutcome.failure true, CmdOutcome.failure true]
    (by decide) (by decide) (by decide) rfl rfl rfl (by decide)

/-! ## Claim C2 -/

theorem parse_two (p : String) :
    parseBuck2TargetsOutput "//d:a\n//d:b" p =
      LoadResult.ok [⟨"//d:a", "unknown", p, [], false⟩,
                     ⟨"//d:b", "unknown", p, [], false⟩] := rfl

/-- C2: successful directory-load scenario with cross-category chaining.
Directory `D` has a manifest and is the selected directory;
`request_directory_load(D)` is issued and the build tool prints the labels
`//d:a` and `//d:b`; after one worker step and one `drain_results` call,
`D` is loaded with those two targets in order, the UI-visible filtered list
mirrors them, and a detail-load request for `//d:a` (index 0) has been
issued to the detail loader. -/
theorem c2_scenario (s0 : ProjState) (D : String) (d0 : BuckDirectory)
    (hd : dirsGet s0.directories D = some d0)
    (hpath : d0.path = D)
    (hl : d0.targets_loaded = false) (hg : d0.targets_loading = false)
    (hb : d0.has_buck_file = true)
    (hsel : s0.selected_directory = D)
    (hquery : s0.search_query = "")
    (hact : s0.activeLoad = none)
    (hdet : s0.activeDetail = none)
    (hcanc : s0.cancelledTokens = [])
    (hlq : s0.loaderQueue = [])
    (hdlq : s0.detailLoaderQueue = [])
    (hrq : s0.resultQueue = [])
    (hdrq : s0.detailResultQueue = []) :
    ∃ s3, (requestTargetsForDirectory s0 D).bind
        (fun s1 => updateLoadedTargetResults
          (loaderTaskStep s1 (CmdOutcome.success "//d:a\n//d:b"))) = some s3 ∧
      ∃ dd, dirsGet s3.directories D = some dd ∧
        dd.targets_loaded = true ∧
        dd.targets.map BuckTarget.name = ["//d:a", "//d:b"] ∧
        s3.filtered_targets = dd.targets ∧
        ∃ tok, s3.detailLoaderQueue = [(D, 0, "//d:a", tok)] := by
  obtain ⟨ds, sel, st, sq, ft, al, ad, ct, nt, lq, dlq, rq, drq⟩ := s0
  dsimp only at hd hpath hsel hquery hact hdet hcanc hlq hdlq hrq hdrq
  subst hsel hquery hact hdet hcanc hlq hdlq hrq hdrq
  rw [request_full_spec _ _ d0 hd hl hg hb]
  have hie : "".isEmpty = true := rfl
  simp [optCancelTok, loaderTaskStep, loadTargetsResult, parse_two,
    updateLoadedTargetResults, processTargetResults, processTargetResult, selectedRefresh,
    updateFilteredTargetsWithReset, filteredOf, selTargetsOf,
    requestTargetDetailsForSelected, requestTargetDetails, processDetailResults,
    dirsGet_update_self, hd, hpath, hie]

/-- A concrete eligible single-directory state for scenario witnesses. -/
def c2S : ProjState :=
  { directories := [("d", ⟨"d", [], true, false, false⟩)],
    selected_directory := "d", selected_target := 0, search_query := "",
    filtered_targets := [], activeLoad := none, activeDetail := none,
    cancelledTokens := [], nextToken := 0, loaderQueue := [],
    detailLoaderQueue := [], resultQueue := [], detailResultQueue := [] }

theorem c2_scenario_witness :
    ∃ s3, (requestTargetsForDirectory c2S "d").bind
        (fun s1 => updateLoadedTargetResults
          (loaderTaskStep s1 (CmdOutcome.success "//d:a\n//d:b"))) = some s3 ∧
      ∃ dd, dirsGet s3.directories "d" = some dd ∧
        dd.targets_loaded = true ∧
        dd.targets.map BuckTarget.name = ["//d:a", "//d:b"] ∧
        s3.filtered_targets = dd.targets ∧
        ∃ tok, s3.detailLoaderQueue = [("d", 0, "//d:a", tok)] :=
  c2_scenario c2S "d" ⟨"d", [], true, false, false⟩ (by decide) rfl rfl rfl rfl rfl rfl
    rfl rfl rfl rfl rfl rfl rfl

/-! ## Claims C6 and C8 -/

/-- `request_targets_for_directory` on a directory that is already loaded,
already loading, or without a manifest takes the early-return path
(src/buck.rs:333-340): it only calls
`update_filtered_targets_with_reset(true)`. -/
theorem request_loaded_spec (s : ProjState) (k : String) (d : BuckDirectory)
    (hd : dirsGet s.directories k = some d)
    (hcond : (d.targets_loaded || d.targets_loading || !d.has_buck_file) = true) :
    requestTargetsForDirectory s k = some (updateFilteredTargetsWithReset s true) := by
  simp only [requestTargetsForDirectory, hd, hcond, if_true]

/-- C6 (amended): calling `request_directory_load(D)` when `D` is already
loaded (or loading, or without a manifest) is a load-level no-op: no token
is created or cancelled, the active-request slots, every queue and every
directory state are unchanged; the only effect is recomputing the UI
filtered target list and resetting the selected-target index. -/
theorem c6_request_loaded_noop (s : ProjState) (k : String) (d : BuckDirectory)
    (hd : dirsGet s.directories k = some d)
    (hcond : (d.targets_loaded || d.targets_loading || !d.has_buck_file) = true) :
    ∃ s1, requestTargetsForDirectory s k = some s1 ∧
      s1.nextToken = s.nextToken ∧
      s1.activeLoad = s.activeLoad ∧
      s1.activeDetail = s.activeDetail ∧
      s1.cancelledTokens = s.cancelledTokens ∧
      s1.loaderQueue = s.loaderQueue ∧
      s1.detailLoaderQueue = s.detailLoaderQueue ∧
      s1.directories = s.directories ∧
      s1.resultQueue = s.resultQueue ∧
      s1.detailResultQueue = s.detailResultQueue ∧
      s1 = updateFilteredTargetsWithReset s true := by
  obtain ⟨ft, st, hu⟩ := updateFiltered_shape s true
  refine ⟨_, request_loaded_spec s k d hd hcond, ?_⟩
  rw [hu]
  exact ⟨rfl, rfl, rfl, rfl, rfl, rfl, rfl, rfl, rfl, rfl⟩

/-- A target of the directory `e` used in the no-op counterexample. -/
def c6T : BuckTarget := ⟨"//e:x", "unknown", "e", [], false⟩

/-- A state in which directory `d` is loaded while a different directory
`e` is selected with the second of its two targets highlighted. -/
def c6S : ProjState :=
  { directories :=
      [("d", ⟨"d", [], true, true, false⟩), ("e", ⟨"e", [c6T, c6T], true, true, false⟩)],
    selected_directory := "e", selected_target := 1, search_query := "",
    filtered_targets := [c6T, c6T], activeLoad := none, activeDetail := none,
    cancelledTokens := [], nextToken := 5, loaderQueue := [],
    detailLoaderQueue := [], resultQueue := [], detailResultQueue := [] }

/-- C6 counterexample: `request_targets_for_directory` on an already-loaded
directory is not a strict no-op — it resets the selected-target index (and
recomputes the filtered list), so the state changes. -/
theorem c6_counterexample :
    dirsGet c6S.directories "d" = some ⟨"d", [], true, true, false⟩ ∧
    requestTargetsForDirectory c6S "d" ≠ some c6S := by decide

theorem c6_request_loaded_noop_witness :
    ∃ s1, requestTargetsForDirectory c6S "d" = some s1 ∧
      s1.nextToken = c6S.nextToken ∧
      s1.activeLoad = c6S.activeLoad ∧
      s1.activeDetail = c6S.activeDetail ∧
      s1.cancelledTokens = c6S.cancelledTokens ∧
      s1.loaderQueue = c6S.loaderQueue ∧
      s1.detailLoaderQueue = c6S.detailLoaderQueue ∧
      s1.directories = c6S.directories ∧
      s1.resultQueue = c6S.resultQueue ∧
      s1.detailResultQueue = c6S.detailResultQueue ∧
      s1 = updateFilteredTargetsWithReset c6S true :=
  c6_request_loaded_noop c6S "d" ⟨"d", [], true, true, false⟩ (by decide) (by decide)

/-- C8 (amended): if the build tool exits non-zero for a selected directory
`D` that has a manifest, then after one worker step and one drain `D` is
loaded with an empty target list, and a second `request_directory_load(D)`
does not retry: it only recomputes the filtered list and resets the
selection index, leaving every load-related component untouched. -/
theorem c8_failed_load_terminal (s0 : ProjState) (D : String) (d0 : BuckDirectory)
    (hd : dirsGet s0.directories D = some d0)
    (hpath : d0.path = D)
    (hl : d0.targets_loaded = false) (hg : d0.targets_loading = false)
    (hb : d0.has_buck_file = true)
    (hsel : s0.selected_directory = D)
    (hquery : s0.search_query = "")
    (hact : s0.activeLoad = none)
    (hdet : s0.activeDetail = none)
    (hcanc : s0.cancelledTokens = [])
    (hlq : s0.loaderQueue = [])
    (hdlq : s0.detailLoaderQueue = [])
    (hrq : s0.resultQueue = [])
    (hdrq : s0.detailResultQueue = []) :
    ∃ s3, (requestTargetsForDirectory s0 D).bind
        (fun s1 => updateLoadedTargetResults
          (loaderTaskStep s1 (CmdOutcome.failure true))) = some s3 ∧
      (∃ dd, dirsGet s3.directories D = some dd ∧
        dd.targets_loaded = true ∧ dd.targets = []) ∧
      requestTargetsForDirectory s3 D = some (updateFilteredTargetsWithReset s3 true) ∧
      ∃ ftl stl, updateFilteredTargetsWithReset s3 true =
        { s3 with filtered_targets := ftl, selected_target := stl } := by
  obtain ⟨ds, sel, st, sq, ft, al, ad, ct, nt, lq, dlq, rq, drq⟩ := s0
  dsimp only at hd hpath hsel hquery hact hdet hcanc hlq hdlq hrq hdrq
  subst hsel hquery hact hdet hcanc hlq hdlq hrq hdrq
  rw [request_full_spec _ _ d0 hd hl hg hb]
  have hie : "".isEmpty = true := rfl
  simp [optCancelTok, loaderTaskStep, loadTargetsResult,
    updateLoadedTargetResults, processTargetResults, processTargetResult, selectedRefresh,
    requestTargetsForDirectory, updateFilteredTargetsWithReset, filteredOf, selTargetsOf,
    requestTargetDetailsForSelected, requestTargetDetails, processDetailResults,
    dirsGet_update_self, hd, hpath, hie]

theorem c8_failed_load_terminal_witness :
    ∃ s3, (requestTargetsForDirectory c2S "d").bind
        (fun s1 => updateLoadedTargetResults
          (loaderTaskStep s1 (CmdOutcome.failure true))) = some s3 ∧
      (∃ dd, dirsGet s3.directories "d" = some dd ∧
        dd.targets_loaded = true ∧ dd.targets = []) ∧
      requestTargetsForDirectory s3 "d" = some (updateFilteredTargetsWithReset s3 true) ∧
      ∃ ftl stl, updateFilteredTargetsWithReset s3 true =
        { s3 with filtered_targets := ftl, selected_target := stl } :=
  c8_failed_load_terminal c2S "d" ⟨"d", [], true, false, false⟩ (by decide) rfl rfl rfl
    rfl rfl rfl rfl rfl rfl rfl rfl rfl rfl

/-- A state with an eligible directory `d` and a different selected
directory `e` whose second target is highlighted. -/
def c8S : ProjState :=
  { directories :=
      [("d", ⟨"d", [], true, false, false⟩), ("e", ⟨"e", [c6T, c6T], true, true, false⟩)],
    selected_directory := "e", selected_target := 1, search_query := "",
    filtered_targets := [c6T, c6T], activeLoad := none, activeDetail := none,
    cancelledTokens := [], nextToken := 0, loaderQueue := [],
    detailLoaderQueue := [], resultQueue := [], detailResultQueue := [] }

/-- The state reached from `c8S` after the failed load of `d` is drained. -/
def c8Final : ProjState :=
  { directories :=
      [("d", ⟨"d", [], true, true, false⟩), ("e", ⟨"e", [c6T, c6T], true, true, false⟩)],
    selected_directory := "e", selected_target := 1, search_query := "",
    filtered_targets := [c6T, c6T], activeLoad := none, activeDetail := none,
    cancelledTokens := [], nextToken := 1, loaderQueue := [],
    detailLoaderQueue := [], resultQueue := [], detailResultQueue := [] }

/-- C8 counterexample: after a failed load of `d` (exit non-zero, manifest
present), `d` is loaded with no targets, but the second
`request_directory_load(d)` call is not a strict no-op — it resets the
selected-target index of the (different) selected directory. -/
theorem c8_counterexample :
    (requestTargetsForDirectory c8S "d").bind
        (fun s1 => updateLoadedTargetResults
          (loaderTaskStep s1 (CmdOutcome.failure true))) = some c8Final ∧
    dirsGet c8Final.directories "d" = some ⟨"d", [], true, true, false⟩ ∧
    requestTargetsForDirectory c8Final "d" ≠ some c8Final := by decide

/-! ## Claim C10 -/

/-- C10: a detail-load result delivered for a `(directory, target_index)`
pair whose index is out of range of the directory's current target list is
silently dropped during result draining: the guarded index access takes the
skip branch, no target is mutated, no sentinel is installed and no panic
occurs — the drain only consumes the queued result. -/
theorem c10_out_of_range_detail_dropped (s : ProjState) (k : String) (i : Nat)
    (r : LoadResult TargetDetails) (d : BuckDirectory)
    (hd : dirsGet s.directories k = some d)
    (hlen : d.targets.length ≤ i)
    (hrq : s.resultQueue = [])
    (hdrq : s.detailResultQueue = [(k, i, r)]) :
    updateLoadedTargetResults s = some { s with detailResultQueue := [] } := by
  simp only [updateLoadedTargetResults, hrq, hdrq, processTargetResults,
    processDetailResults, processDetailResult]
  simp only [hd, List.getElem?_eq_none hlen, hrq]

/-- A detail-loaded target of directory `d`. -/
def c10T : BuckTarget := ⟨"//d:z", "unknown", "d", [], true⟩

/-- A state with one single-target directory and one out-of-range detail
result waiting in the detail-result channel. -/
def c10S : ProjState :=
  { directories := [("d", ⟨"d", [c10T], true, true, false⟩)],
    selected_directory := "d", selected_target := 0, search_query := "",
    filtered_targets := [c10T], activeLoad := none, activeDetail := none,
    cancelledTokens := [], nextToken := 3, loaderQueue := [],
    detailLoaderQueue := [], resultQueue := [],
    detailResultQueue := [("d", 5, LoadResult.err)] }

theorem c10_out_of_range_detail_dropped_witness :
    updateLoadedTargetResults c10S = some { c10S with detailResultQueue := [] } :=
  c10_out_of_range_detail_dropped c10S "d" 5 LoadResult.err ⟨"d", [c10T], true, true, false⟩
    (by decide) (by decide) rfl rfl

/-! ## Hook-registry lemmas (src/scheduler/hooks.rs) -/

theorem hookRun_append (l1 l2 : List HookOp) : ∀ s : HooksState,
    hookRun s (l1 ++ l2) = hookRun (hookRun s l1) l2 := by
  induction l1 with
  | nil => intro s; rfl
  | cons op ops ih =>
    intro s
    simp only [List.cons_append, hookRun]
    exact ih (hookStep s op)

theorem hookRun_count (h : Nat) (ops : List HookOp) : ∀ s : HooksState,
    (hookRun s ops).pending.count h + (hookRun s ops).executed.count h =
      s.pending.count h + s.executed.count h + ops.count (HookOp.add h) := by
  induction ops with
  | nil => intro s; simp [hookRun]
  | cons op ops ih =>
    intro s
    simp only [hookRun]
    rw [ih (hookStep s op)]
    cases op with
    | add h2 =>
      by_cases hh : h2 = h
      · subst hh
        simp [hookStep, List.count_cons, List.count_append]
        omega
      · have hb : (HookOp.add h2 == HookOp.add h) = false := by
          simp [hh]
        have hb2 : (h2 == h) = false := by simp [hh]
        simp [hookStep, List.count_cons, List.count_append, hb, hb2]
    | runAll =>
      simp only [hookStep, List.count_cons, List.count_append, List.count_nil]
      have hb : (HookOp.runAll == HookOp.add h) = false := rfl
      simp [hb]
      omega

theorem hookRun_executed_mono (h : Nat) (ops : List HookOp) : ∀ s : HooksState,
    s.executed.count h ≤ (hookRun s ops).executed.count h := by
  induction ops with
  | nil => intro s; exact Nat.le_refl _
  | cons op ops ih =>
    intro s
    refine Nat.le_trans ?_ (ih (hookStep s op))
    cases op with
    | add h2 => exact Nat.le_refl _
    | runAll => simp [hookStep, List.count_append]

/-! ## Claim C3 -/

/-- C3: hook exactly-once and ordered drain.  `run_all` atomically swaps
out the entire pending list and executes exactly the removed hooks, in
insertion order (they land on the execution record in list order, each
awaited before the next).  For any interleaving of `add`/`run_all`
operations in which a hook `h` is enqueued exactly once, `h` runs at most
once, and exactly once as soon as some `run_all` follows its `add`
(never lost, never double-run).  A task's `take_task_on_success` yields the
continuation at most once: a second take returns `none`. -/
theorem c3_hooks_exactly_once (s0 : HooksState) (ops : List HookOp) (h : Nat)
    (t : TaskModel)
    (hp : h ∉ s0.pending) (he : h ∉ s0.executed)
    (honce : ops.count (HookOp.add h) = 1) :
    (∀ s : HooksState, hookStep s HookOp.runAll = ⟨[], s.executed ++ s.pending⟩) ∧
    (hookRun s0 ops).executed.count h ≤ 1 ∧
    (∀ pre post, ops = pre ++ HookOp.runAll :: post → HookOp.add h ∈ pre →
      (hookRun s0 ops).executed.count h = 1) ∧
    (takeTaskOnSuccess (takeTaskOnSuccess t).2).1 = none := by
  have hp0 : s0.pending.count h = 0 := List.count_eq_zero.mpr hp
  have he0 : s0.executed.count h = 0 := List.count_eq_zero.mpr he
  have htotal := hookRun_count h ops s0
  rw [hp0, he0, honce] at htotal
  refine ⟨fun s => rfl, ?_, ?_, rfl⟩
  · omega
  · intro pre post hops hmem
    subst hops
    have hcnt : pre.count (HookOp.add h) + (HookOp.runAll :: post).count (HookOp.add h) = 1 := by
      rw [← List.count_append]
      exact honce
    have hposcnt : 1 ≤ pre.count (HookOp.add h) := List.one_le_count_iff.mpr hmem
    have hrapre : (HookOp.runAll :: post).count (HookOp.add h) =
        post.count (HookOp.add h) := by
      simp [List.count_cons]
    have hpre1 : pre.count (HookOp.add h) = 1 := by omega
    have hpost0 : post.count (HookOp.add h) = 0 := by omega
    have hpre := hookRun_count h pre s0
    rw [hp0, he0, hpre1] at hpre
    rw [hookRun_append pre (HookOp.runAll :: post) s0]
    have hstep : hookRun (hookRun s0 pre) (HookOp.runAll :: post) =
        hookRun (hookStep (hookRun s0 pre) HookOp.runAll) post := rfl
    rw [hstep]
    have hafter : (hookStep (hookRun s0 pre) HookOp.runAll).executed.count h = 1 := by
      simp only [hookStep, List.count_append]
      omega
    have hpend0 : (hookStep (hookRun s0 pre) HookOp.runAll).pending.count h = 0 := by
      simp [hookStep]
    have hfinal := hookRun_count h post (hookStep (hookRun s0 pre) HookOp.runAll)
    rw [hafter, hpend0, hpost0] at hfinal
    have hmono := hookRun_executed_mono h post (hookStep (hookRun s0 pre) HookOp.runAll)
    rw [hafter] at hmono
    omega

/-- A sample task: normal priority, two hooks, a success continuation. -/
def taskA : TaskModel :=
  ⟨0, TaskStage.pending, Priority.normal, [1, 2], some 4, ["buck2", "targets", ":"], ".", false⟩

theorem c3_hooks_exactly_once_witness :
    (∀ s : HooksState, hookStep s HookOp.runAll = ⟨[], s.executed ++ s.pending⟩) ∧
    (hookRun ⟨[], []⟩ [HookOp.add 7, HookOp.runAll]).executed.count 7 ≤ 1 ∧
    (∀ pre post, [HookOp.add 7, HookOp.runAll] = pre ++ HookOp.runAll :: post →
      HookOp.add 7 ∈ pre →
      (hookRun ⟨[], []⟩ [HookOp.add 7, HookOp.runAll]).executed.count 7 = 1) ∧
    (takeTaskOnSuccess (takeTaskOnSuccess taskA).2).1 = none :=
  c3_hooks_exactly_once ⟨[], []⟩ [HookOp.add 7, HookOp.runAll] 7 taskA
    (by decide) (by decide) (by decide)

/-! ## Claims C4 and C5 -/

/-- C4: success-path ordering and failure suppression in the execution
unit.  For a non-cancelled task with a command and a success continuation,
when the spawned command exits zero and no cancellation wins the race, the
trace is: spawn, then the continuation applied to the captured stdout, then
every hook in order.  When the command exits non-zero or fails to spawn,
neither the continuation nor any hook runs. -/
theorem c4_success_order_failure_suppression (t : TaskModel) (env : ExecOutcome)
    (hc : t.cancelled = false) (hcmd : t.cmds ≠ [])
    (hsome : t.taskOnSuccess.isSome = true)
    (hnc : env.cancelledDuringRun = false) :
    (env.spawnOk = true → env.exitCode = 0 →
      handleTaskEvents t env =
        [ExecEvent.spawned, ExecEvent.ranOnSuccess env.stdout] ++
          t.hooks.map ExecEvent.ranHook) ∧
    ((env.spawnOk = false ∨ env.exitCode ≠ 0) →
      (∀ out, ExecEvent.ranOnSuccess out ∉ handleTaskEvents t env) ∧
      (∀ hk, ExecEvent.ranHook hk ∉ handleTaskEvents t env)) := by
  obtain ⟨c, hcsome⟩ := Option.isSome_iff_exists.mp hsome
  have hne : t.cmds.isEmpty = false := by
    cases hcmds : t.cmds
    · exact absurd hcmds hcmd
    · rfl
  constructor
  · intro hsp hex
    simp [handleTaskEvents, hc, hne, hsp, hnc, hex, takeTaskOnSuccess, hcsome]
  · intro hf
    rcases hf with hf | hf
    · constructor <;> intro x <;> simp [handleTaskEvents, hc, hne, hf]
    · constructor <;> intro x <;>
        by_cases hsp : env.spawnOk = true <;>
        simp [handleTaskEvents, hc, hne, hsp, hnc, hf]

theorem c4_success_order_failure_suppression_witness :
    ((⟨true, false, 0, "out"⟩ : ExecOutcome).spawnOk = true →
      (⟨true, false, 0, "out"⟩ : ExecOutcome).exitCode = 0 →
      handleTaskEvents taskA ⟨true, false, 0, "out"⟩ =
        [ExecEvent.spawned, ExecEvent.ranOnSuccess "out"] ++
          taskA.hooks.map ExecEvent.ranHook) ∧
    (((⟨true, false, 0, "out"⟩ : ExecOutcome).spawnOk = false ∨
        (⟨true, false, 0, "out"⟩ : ExecOutcome).exitCode ≠ 0) →
      (∀ out, ExecEvent.ranOnSuccess out ∉ handleTaskEvents taskA ⟨true, false, 0, "out"⟩) ∧
      (∀ hk, ExecEvent.ranHook hk ∉ handleTaskEvents taskA ⟨true, false, 0, "out"⟩)) :=
  c4_success_order_failure_suppression taskA ⟨true, false, 0, "out"⟩
    (by decide) (by decide) (by decide) (by decide)

/-- C5: mid-flight cancellation is side-effect free.  When the cancellation
token wins the `select!` race against a running command, the execution unit
kills the child and then awaits it (reaps it), and nothing else happens: no
success continuation, no hooks, no further events. -/
theorem c5_cancel_mid_flight (t : TaskModel) (env : ExecOutcome)
    (hc : t.cancelled = false) (hcmd : t.cmds ≠ [])
    (hsp : env.spawnOk = true) (hnc : env.cancelledDuringRun = true) :
    handleTaskEvents t env =
      [ExecEvent.spawned, ExecEvent.killedChild, ExecEvent.reapedChild] ∧
    (∀ out, ExecEvent.ranOnSuccess out ∉ handleTaskEvents t env) ∧
    (∀ hk, ExecEvent.ranHook hk ∉ handleTaskEvents t env) := by
  have hne : t.cmds.isEmpty = false := by
    cases hcmds : t.cmds
    · exact absurd hcmds hcmd
    · rfl
  refine ⟨?_, ?_, ?_⟩
  · simp [handleTaskEvents, hc, hne, hsp, hnc]
  · intro out
    simp [handleTaskEvents, hc, hne, hsp, hnc]
  · intro hk
    simp [handleTaskEvents, hc, hne, hsp, hnc]

theorem c5_cancel_mid_flight_witness :
    handleTaskEvents taskA ⟨true, true, 0, "out"⟩ =
      [ExecEvent.spawned, ExecEvent.killedChild, ExecEvent.reapedChild] ∧
    (∀ out, ExecEvent.ranOnSuccess out ∉ handleTaskEvents taskA ⟨true, true, 0, "out"⟩) ∧
    (∀ hk, ExecEvent.ranHook hk ∉ handleTaskEvents taskA ⟨true, true, 0, "out"⟩) :=
  c5_cancel_mid_flight taskA ⟨true, true, 0, "out"⟩ (by decide) (by decide) rfl rfl

/-! ## Claim C7 -/

/-- C7: `Priority` is totally ordered with `Low < Normal < High` (the
derived discriminant order), and within one lane's queue a later-enqueued
High task is dequeued before an earlier-enqueued Low task: with `A(Low)`
enqueued at `t0` and `B(High)` at `t1 > t0` (so `A` precedes `B` in arrival
order), `recv` returns `B` first and `A` on the next `recv`. -/
theorem c7_priority_order (a b : Nat) :
    priorityLt Priority.low Priority.normal ∧
    priorityLt Priority.normal Priority.high ∧
    (∀ p q : Priority, priorityLt p q ∨ p = q ∨ priorityLt q p) ∧
    (∀ p q : Priority, priorityLt p q → ¬ priorityLt q p) ∧
    (pchanRecv [⟨a, Priority.low⟩, ⟨b, Priority.high⟩]).map (fun r => r.1.taskId) =
      some b ∧
    (pchanRecv [⟨a, Priority.low⟩, ⟨b, Priority.high⟩]).map
      (fun r => (pchanRecv r.2).map (fun r2 => r2.1.taskId)) = some (some a) := by
  exact ⟨by decide, by decide,
    by intro p q; cases p <;> cases q <;> decide,
    by intro p q; cases p <;> cases q <;> decide,
    rfl, rfl⟩

/-! ## Claim C9 -/

theorem tasksLookup_filter_ne (l : List (Nat × TaskModel)) (id : Nat) :
    tasksLookup (l.filter (fun p => !(p.1 == id))) id = none := by
  induction l with
  | nil => rfl
  | cons p ps ih =>
    by_cases hp : p.1 = id
    · simp [List.filter_cons, hp, ih]
    · simp [List.filter_cons, hp, tasksLookup, ih]

/-- C9: external cancellation via `Scheduler::cancel(id)` removes the task
from the ongoing registry, aborts its per-lane execution handles, triggers
its cancellation token and then still runs all of its hooks, in order — in
contrast with mid-execution self-cancellation, whose execution trace
contains no hook event at all. -/
theorem c9_external_cancel_runs_hooks (o : OngoingModel) (id : Nat) (t : TaskModel)
    (hlook : ongoingLookup o id = some t) :
    ongoingLookup (schedulerCancel o id).1 id = none ∧
    id ∉ (schedulerCancel o id).1.microHandles ∧
    id ∉ (schedulerCancel o id).1.macroHandles ∧
    (schedulerCancel o id).2 =
      (if o.microHandles.contains id then [CancelEvent.abortedMicroHandle id] else []) ++
      (if o.macroHandles.contains id then [CancelEvent.abortedMacroHandle id] else []) ++
      [CancelEvent.cancelledToken id] ++ t.hooks.map CancelEvent.ranHook ∧
    (∀ t2 env, env.cancelledDuringRun = true →
      ∀ hk, ExecEvent.ranHook hk ∉ handleTaskEvents t2 env) := by
  have hrem : schedulerCancel o id =
      (⟨o.all.filter (fun p => !(p.1 == id)),
        o.microHandles.filter (fun h => !(h == id)),
        o.macroHandles.filter (fun h => !(h == id))⟩,
       ((if o.microHandles.contains id then [CancelEvent.abortedMicroHandle id] else []) ++
        (if o.macroHandles.contains id then [CancelEvent.abortedMacroHandle id] else [])) ++
       [CancelEvent.cancelledToken id] ++ t.hooks.map CancelEvent.ranHook) := by
    simp only [schedulerCancel, ongoingRemove, hlook]
  refine ⟨?_, ?_, ?_, ?_, ?_⟩
  · rw [hrem]
    exact tasksLookup_filter_ne o.all id
  · rw [hrem]
    simp [List.mem_filter]
  · rw [hrem]
    simp [List.mem_filter]
  · rw [hrem]
  · intro t2 env hcr hk
    simp only [handleTaskEvents, hcr]
    split_ifs <;> simp

/-- A registry holding one task with a live micro-lane handle. -/
def c9O : OngoingModel := ⟨[(3, taskA)], [3], []⟩

theorem c9_external_cancel_runs_hooks_witness :
    ongoingLookup (schedulerCancel c9O 3).1 3 = none ∧
    3 ∉ (schedulerCancel c9O 3).1.microHandles ∧
    3 ∉ (schedulerCancel c9O 3).1.macroHandles ∧
    (schedulerCancel c9O 3).2 =
      (if c9O.microHandles.contains 3 then [CancelEvent.abortedMicroHandle 3] else []) ++
      (if c9O.macroHandles.contains 3 then [CancelEvent.abortedMacroHandle 3] else []) ++
      [CancelEvent.cancelledToken 3] ++ taskA.hooks.map CancelEvent.ranHook ∧
    (∀ t2 env, env.cancelledDuringRun = true →
      ∀ hk, ExecEvent.ranHook hk ∉ handleTaskEvents t2 env) :=
  c9_external_cancel_runs_hooks c9O 3 taskA (by decide)

end BuckTui
